import Mathlib

/-!
# cfile: the xz backend (`cfile_xz.c`) and its line buffer

A shallow embedding of the operations of `cfile_xz.c`:
`xz_fgetc`, `xz_gets`, `xz_vprintf`, `xz_read`, `xz_flush`, `xz_close`, `xz_eof`.

The file calls the high-level interface of libbz2 on `cfxp->bp`
(`BZ2_bzread`, `BZ2_bzwrite`, `BZ2_bzflush`, `BZ2_bzReadClose`,
`BZ2_bzWriteClose`).  These are external; they are rendered here as
functions on an explicit stream state `BZFILE`, following `bzlib.c`.
-/

namespace Cfile

/-- One `char` cell of memory. -/
abbrev Byte := Fin 256

/-- The value of `EOF` in `stdio.h`. -/
def EOF : Int := -1

/-- libbz2 status `BZ_OK`. -/
def BZ_OK : Int := 0

/-- libbz2 status `BZ_SEQUENCE_ERROR`. -/
def BZ_SEQUENCE_ERROR : Int := -1

/-- Conversion of a `size_t` value to `int` (two's complement, 32 bit). -/
def to_int (n : Nat) : Int :=
  if n % 2 ^ 32 < 2 ^ 31 then ((n % 2 ^ 32 : Nat) : Int)
  else ((n % 2 ^ 32 : Nat) : Int) - 2 ^ 32

/-- The product `size * num` of two `size_t` values (64 bit, wrapping). -/
def size_mul (size num : Nat) : Nat := (size * num) % 2 ^ 64

/-- The state behind a libbz2 `BZFILE *`: whether it was opened for writing,
the uncompressed bytes a reader has still to deliver, and the uncompressed
bytes a writer has accepted so far. -/
structure BZFILE where
  writing : Bool
  pending : List Byte
  accepted : List Byte
deriving DecidableEq, Repr

/-- libbz2 `BZ2_bzread(b, buf, len)`: fails with -1 on a negative length or on
a stream opened for writing; otherwise delivers the next `len` bytes, fewer
at the end of the data.  Returns the count, the bytes put in `buf`, and the
stream. -/
def BZ2_bzread (b : BZFILE) (len : Int) : Int × List Byte × BZFILE :=
  if len < 0 ∨ b.writing = true then (-1, [], b)
  else (((b.pending.take len.toNat).length : Nat),
        b.pending.take len.toNat,
        { b with pending := b.pending.drop len.toNat })

/-- libbz2 `BZ2_bzwrite(b, buf, len)`: fails with -1 on a negative length or
on a stream not opened for writing (nothing is written); otherwise accepts
the first `len` bytes of `buf` and returns `len`. -/
def BZ2_bzwrite (b : BZFILE) (buf : List Byte) (len : Int) : Int × BZFILE :=
  if len < 0 ∨ b.writing = false then (-1, b)
  else (len, { b with accepted := b.accepted ++ buf.take len.toNat })

/-- libbz2 `BZ2_bzflush(b)`: does nothing and returns 0. -/
def BZ2_bzflush (b : BZFILE) : Int × BZFILE := (0, b)

/-- libbz2 `BZ2_bzReadClose(&bzerror, b)`: the status left in `bzerror`. -/
def BZ2_bzReadClose (b : BZFILE) : Int :=
  if b.writing = true then BZ_SEQUENCE_ERROR else BZ_OK

/-- libbz2 `BZ2_bzWriteClose(&bzerror, b, abandon, &nbytes_in, NULL)`: the
status left in `bzerror` and the value left in `nbytes_in` (the low 32 bits
of the uncompressed byte count; untouched when the stream is not a writer). -/
def BZ2_bzWriteClose (b : BZFILE) (_abandon : Int) (nbytes_in : Nat) : Int × Nat :=
  if b.writing = true then (BZ_OK, b.accepted.length % 2 ^ 32)
  else (BZ_SEQUENCE_ERROR, nbytes_in)

/-- C `strlen`: the number of bytes before the first NUL. -/
def strlen (buf : List Byte) : Nat := (buf.takeWhile (fun c => c ≠ 0)).length

/-- The struct `cfile_buffer` of `cfile_buffer.h`: storage, allocated size,
length of the valid data, position in the valid data.  (The callback field
is the function `xz_read_into_buffer` below, the one callback of the file.) -/
structure cfile_buffer where
  buffer : List Byte
  bufsize : Nat
  buflen : Nat
  bufpos : Nat
deriving DecidableEq, Repr

/-- The struct `cfile_xz`, as the functions of `cfile_xz.c` use it: the codec
stream they reach as `cfxp->bp`, and the line buffer pointer `cfxp->buffer`
(`none` is `NULL`).  The declared fields `xf` and `stream` are used by no
function. -/
structure cfile_xz where
  bp : BZFILE
  buffer : Option cfile_buffer
deriving DecidableEq, Repr

/-- Source `xz_read_into_buffer`, the block-fill callback of the line buffer.
Its body is empty (only the cast of `private`): nothing is put in the buffer
and the stream is not touched.  It yields the bytes filled, of which there
are none, and the stream as it was. -/
def xz_read_into_buffer (bp : BZFILE) (_size : Nat) : List Byte × BZFILE :=
  ([], bp)

/-- Modelled from the spec: `buf_fgetc` of the line buffer (`next_char`;
`cfile_buffer.c` is missing).  If the cursor is inside the valid data, return
the byte there and advance; otherwise refill from the start of the storage
with the cursor at 0, and return the end marker if the callback filled
nothing. -/
def buf_fgetc (bf : cfile_buffer) (bp : BZFILE) : Int × cfile_buffer × BZFILE :=
  if bf.bufpos < bf.buflen then
    (((bf.buffer.getD bf.bufpos 0).val : Int), { bf with bufpos := bf.bufpos + 1 }, bp)
  else
    let r := xz_read_into_buffer bp bf.bufsize
    let bf1 : cfile_buffer :=
      { bf with buffer := r.1 ++ bf.buffer.drop r.1.length, buflen := r.1.length, bufpos := 0 }
    if r.1.length = 0 then (EOF, bf1, r.2)
    else (((bf1.buffer.getD 0 0).val : Int), { bf1 with bufpos := 1 }, r.2)

/-- Source `xz_fgetc`: `buf_fgetc(cfxp->buffer, cfxp)`.  The result is `none`
when the buffer pointer is `NULL` (the call dereferences it). -/
def xz_fgetc (fp : cfile_xz) : Option (Int × cfile_xz) :=
  match fp.buffer with
  | none => none
  | some bf =>
    let r := buf_fgetc bf fp.bp
    some (r.1, { bp := r.2.2, buffer := some r.2.1 })

/-- Modelled from the spec: `bz_fgetc`, the character read `xz_gets` calls.
It belongs to the bzip2 backend, which is missing; by the spec it is
`next_char` on the handle's line buffer, as `xz_fgetc` is. -/
def bz_fgetc (fp : cfile_xz) : Option (Int × cfile_xz) := xz_fgetc fp

/-- The loop of `xz_gets`, `while (--len) ...`, with `n` the value `--len`
yields at the test and `acc` the characters stored so far (`ptr - str` of
them).  Result: `none` for a fault, else the returned pointer (`none` is
`NULL`, `some s` is `str` holding `s`) and the handle. -/
def xz_gets_loop : Nat → cfile_xz → List Byte → Option (Option (List Byte) × cfile_xz)
  | 0, fp, acc => some (some (acc ++ [0]), fp)
  | n + 1, fp, acc =>
    match bz_fgetc fp with
    | none => none
    | some (ch, fp1) =>
      if ch = EOF then
        if acc = [] then some (none, fp1) else some (some (acc ++ [0]), fp1)
      else
        let c : Byte := Fin.ofNat (ch % 256).toNat
        if c = 10 then some (some (acc ++ [c] ++ [0]), fp1)
        else xz_gets_loop n fp1 (acc ++ [c])

/-- Source `xz_gets(fp, str, len)`. -/
def xz_gets (fp : cfile_xz) (len : Nat) : Option (Option (List Byte) × cfile_xz) :=
  if len ≤ 0 then some (none, fp)
  else xz_gets_loop (len - 1) fp []

/-- Source `xz_vprintf`, with `buf` the string `talloc_vasprintf` rendered
from the format and arguments. -/
def xz_vprintf (fp : cfile_xz) (buf : List Byte) : Int × cfile_xz :=
  let r := BZ2_bzwrite fp.bp buf (to_int (strlen buf))
  (r.1, { fp with bp := r.2 })

/-- Source `xz_read`: the count returned, the bytes put at `ptr`, the handle. -/
def xz_read (fp : cfile_xz) (size num : Nat) : Int × List Byte × cfile_xz :=
  let r := BZ2_bzread fp.bp (to_int (size_mul size num))
  (r.1, r.2.1, { fp with bp := r.2.2 })

/-- Source `xz_write`. -/
def xz_write (fp : cfile_xz) (ptr : List Byte) (size num : Nat) : Int × cfile_xz :=
  let r := BZ2_bzwrite fp.bp ptr (to_int (size_mul size num))
  (r.1, { fp with bp := r.2 })

/-- Source `xz_flush`. -/
def xz_flush (fp : cfile_xz) : Int × cfile_xz :=
  let r := BZ2_bzflush fp.bp
  (r.1, { fp with bp := r.2 })

/-- Source `xz_eof`: the body is empty, so no value is returned. -/
def xz_eof (_fp : cfile_xz) : Option Bool := none

/-- The calls `xz_close` makes outside the handle. -/
inductive Call where
  | bzReadClose
  | bzWriteClose (abandon : Int)
  | bzip_attempt_store (size : Nat)
deriving DecidableEq, Repr

/-- Source `xz_close`; `uncompressed_size` is the content of the
uninitialised local of that name.  Returns `bzerror` and the calls made, in
order.  No field of the handle is assigned. -/
def xz_close (fp : cfile_xz) (uncompressed_size : Nat) : Int × List Call :=
  match fp.buffer with
  | some _ => (BZ2_bzReadClose fp.bp, [Call.bzReadClose])
  | none =>
    let r := BZ2_bzWriteClose fp.bp 0 uncompressed_size
    (r.1, [Call.bzWriteClose 0, Call.bzip_attempt_store r.2])

/-- Whether a call finalises the codec stream. -/
def Call.finalises : Call → Bool
  | Call.bzReadClose => true
  | Call.bzWriteClose _ => true
  | Call.bzip_attempt_store _ => false

/-- Whether a call stores a size annotation. -/
def Call.stores : Call → Bool
  | Call.bzip_attempt_store _ => true
  | _ => false

/-- Two calls of `xz_close` on one handle, one after the other: the status of
each and the calls made by each.  The first call assigns no field of the
handle, so the second call finds the same buffer pointer and stream. -/
def xz_close_twice (fp : cfile_xz) (u1 u2 : Nat) : (Int × List Call) × (Int × List Call) :=
  (xz_close fp u1, xz_close fp u2)

/-- Successive `xz_gets` calls on one handle with the given `len` arguments:
the pointers returned, in order, and the handle at the end. -/
def xz_gets_seq : List Nat → cfile_xz → Option (List (Option (List Byte)) × cfile_xz)
  | [], fp => some ([], fp)
  | len :: lens, fp =>
    match xz_gets fp len with
    | none => none
    | some (r, fp1) =>
      match xz_gets_seq lens fp1 with
      | none => none
      | some (rs, fp2) => some (r :: rs, fp2)

/-- The buffer invariant of the data model:
`cursor ≤ valid_length ≤ capacity`, with the storage of the declared,
non-zero capacity. -/
def cfile_buffer.wf (bf : cfile_buffer) : Prop :=
  bf.bufpos ≤ bf.buflen ∧ bf.buflen ≤ bf.bufsize ∧ bf.buffer.length = bf.bufsize ∧ 0 < bf.bufsize

instance (bf : cfile_buffer) : Decidable bf.wf := by
  unfold cfile_buffer.wf; infer_instance

/-- The unread part of the valid data of a buffer. -/
def cfile_buffer.unread (bf : cfile_buffer) : List Byte :=
  (bf.buffer.take bf.buflen).drop bf.bufpos

/-- A handle open for reading: the line buffer is allocated and satisfies
its invariant. -/
def cfile_xz.readable (fp : cfile_xz) : Prop :=
  match fp.buffer with
  | none => False
  | some bf => bf.wf

instance (fp : cfile_xz) : Decidable fp.readable := by
  unfold cfile_xz.readable; cases fp.buffer <;> infer_instance

/-- A handle in read mode: the line buffer is allocated and the codec stream
was opened for reading. -/
def cfile_xz.read_mode (fp : cfile_xz) : Prop :=
  fp.buffer.isSome = true ∧ fp.bp.writing = false

instance (fp : cfile_xz) : Decidable fp.read_mode := by
  unfold cfile_xz.read_mode; infer_instance

/-- The unread bytes held in the line buffer of a handle. -/
def cfile_xz.buffered (fp : cfile_xz) : List Byte :=
  match fp.buffer with
  | none => []
  | some bf => bf.unread

/-- The remaining stream of a handle: the unread bytes of the line buffer,
then the bytes the codec has still to deliver. -/
def cfile_xz.remaining (fp : cfile_xz) : List Byte :=
  match fp.buffer with
  | none => fp.bp.pending
  | some bf => bf.unread ++ fp.bp.pending

/-- The characters a returned pointer stands for: none for `NULL`, the
string without its terminating NUL otherwise. -/
def copied : Option (List Byte) → List Byte
  | none => []
  | some s => s.dropLast

/-- The characters a loop of at most `n` rounds copies from the stream `s`:
up to and including the first newline, at most `n`, at most all of `s`. -/
def line_take : Nat → List Byte → List Byte
  | 0, _ => []
  | _ + 1, [] => []
  | n + 1, c :: t => if c = 10 then [c] else c :: line_take n t

/-- A read call on a handle: `xz_gets` with a `len`, or `xz_read` with a
record size and a count. -/
inductive ReadOp where
  | gets (len : Nat)
  | read (size num : Nat)
deriving DecidableEq, Repr

/-- A sequence of read calls on one handle: the data each call handed to the
caller, in order, and the handle at the end. -/
def run_reads : List ReadOp → cfile_xz → Option (List (List Byte) × cfile_xz)
  | [], fp => some ([], fp)
  | ReadOp.gets len :: ops, fp =>
    match xz_gets fp len with
    | none => none
    | some (r, fp1) =>
      match run_reads ops fp1 with
      | none => none
      | some (ds, fp2) => some (copied r :: ds, fp2)
  | ReadOp.read size num :: ops, fp =>
    match run_reads ops (xz_read fp size num).2.2 with
    | none => none
    | some (ds, fp2) => some ((xz_read fp size num).2.1 :: ds, fp2)

/-- A freshly opened read handle on the file `"abc\nde\nf"`, with a line
buffer of three bytes. -/
def abc_handle : cfile_xz :=
  { bp := { writing := false, pending := [97, 98, 99, 10, 100, 101, 10, 102], accepted := [] },
    buffer := some { buffer := [0, 0, 0], bufsize := 3, buflen := 0, bufpos := 0 } }

/-- A read handle whose stream has no data left. -/
def eof_handle : cfile_xz :=
  { bp := { writing := false, pending := [], accepted := [] },
    buffer := some { buffer := [10, 102, 101], bufsize := 3, buflen := 0, bufpos := 0 } }

/-- A read handle on a stream holding 40000 bytes (10000 four-byte records). -/
def records_handle : cfile_xz :=
  { bp := { writing := false, pending := List.replicate 40000 0, accepted := [] },
    buffer := some { buffer := [0, 0, 0], bufsize := 3, buflen := 0, bufpos := 0 } }

/-- A write handle that has accepted two bytes: no line buffer. -/
def write_handle : cfile_xz :=
  { bp := { writing := true, pending := [], accepted := [104, 105] }, buffer := none }

/-! ## The character read of the line buffer -/

theorem byte_ne_EOF (c : Byte) : ((c.val : Int) = EOF) = False := by
  simp only [EOF, eq_iff_iff, iff_false]
  omega

theorem byte_of_int (c : Byte) : (Fin.ofNat ((c.val : Int) % 256).toNat : Byte) = c := by
  apply Fin.ext
  have h := c.isLt
  simp only [Fin.ofNat, Fin.val_mk]
  omega

theorem unread_cons_of_lt (bf : cfile_buffer) (hw : bf.wf) (hlt : bf.bufpos < bf.buflen) :
    bf.unread = bf.buffer.getD bf.bufpos 0 ::
      ({ bf with bufpos := bf.bufpos + 1 } : cfile_buffer).unread := by
  obtain ⟨_, h2, h3, _⟩ := hw
  have hlen : bf.bufpos < (bf.buffer.take bf.buflen).length := by
    rw [List.length_take]; omega
  have hb : bf.bufpos < bf.buffer.length := by omega
  simp only [cfile_buffer.unread]
  rw [List.drop_eq_getElem_cons hlen]
  congr 1
  rw [List.getElem_take, List.getD_eq_getElem _ _ hb]

theorem unread_nil_of_not_lt (bf : cfile_buffer) (hw : bf.wf) (hlt : ¬ bf.bufpos < bf.buflen) :
    bf.unread = [] := by
  obtain ⟨h1, h2, h3, _⟩ := hw
  simp only [cfile_buffer.unread]
  apply List.drop_eq_nil_of_le
  rw [List.length_take]; omega

/-- With nothing unread in the buffer the character read asks the callback,
gets nothing, and returns the end marker; the stream is not touched. -/
theorem buf_fgetc_drained (bf : cfile_buffer) (bp : BZFILE) (hw : bf.wf) (hu : bf.unread = []) :
    (buf_fgetc bf bp).1 = EOF ∧ (buf_fgetc bf bp).2.1.wf ∧
      (buf_fgetc bf bp).2.1.unread = [] ∧ (buf_fgetc bf bp).2.2 = bp := by
  have hlt : ¬ bf.bufpos < bf.buflen := by
    intro hlt
    rw [unread_cons_of_lt bf hw hlt] at hu
    exact List.cons_ne_nil _ _ hu
  obtain ⟨h1, h2, h3, h4⟩ := hw
  simp [buf_fgetc, hlt, xz_read_into_buffer, cfile_buffer.wf, cfile_buffer.unread, h3, h4]

/-- With a byte unread in the buffer the character read returns it. -/
theorem buf_fgetc_buffered (bf : cfile_buffer) (bp : BZFILE) (hw : bf.wf) (c : Byte)
    (t : List Byte) (hu : bf.unread = c :: t) :
    (buf_fgetc bf bp).1 = (c.val : Int) ∧ (buf_fgetc bf bp).2.1.wf ∧
      (buf_fgetc bf bp).2.1.unread = t ∧ (buf_fgetc bf bp).2.2 = bp := by
  have hlt : bf.bufpos < bf.buflen := by
    by_contra hlt
    rw [unread_nil_of_not_lt bf hw hlt] at hu
    exact List.cons_ne_nil _ _ hu.symm
  have hu1 := unread_cons_of_lt bf hw hlt
  rw [hu1] at hu
  obtain ⟨h1, h2, h3, h4⟩ := hw
  simp only [buf_fgetc, hlt, if_true]
  injection hu with hc ht
  exact ⟨by rw [hc], ⟨by simp only; omega, h2, h3, h4⟩, ht, trivial⟩

theorem remaining_eq (fp : cfile_xz) (hr : fp.readable) :
    fp.remaining = fp.buffered ++ fp.bp.pending := by
  obtain ⟨bp, buffer⟩ := fp
  cases buffer with
  | none => exact absurd hr (by simp [cfile_xz.readable])
  | some bf => rfl

theorem bz_fgetc_drained (fp : cfile_xz) (hr : fp.readable) (hb : fp.buffered = []) :
    ∃ fp1, bz_fgetc fp = some (EOF, fp1) ∧ fp1.readable ∧ fp1.buffered = [] ∧
      fp1.bp = fp.bp := by
  obtain ⟨bp, buffer⟩ := fp
  cases buffer with
  | none => exact absurd hr (by simp [cfile_xz.readable])
  | some bf =>
    have h := buf_fgetc_drained bf bp hr hb
    refine ⟨{ bp := (buf_fgetc bf bp).2.2, buffer := some (buf_fgetc bf bp).2.1 },
      ?_, h.2.1, h.2.2.1, h.2.2.2⟩
    simp only [bz_fgetc, xz_fgetc, h.1]

theorem bz_fgetc_buffered (fp : cfile_xz) (hr : fp.readable) (c : Byte) (t : List Byte)
    (hb : fp.buffered = c :: t) :
    ∃ fp1, bz_fgetc fp = some ((c.val : Int), fp1) ∧ fp1.readable ∧ fp1.buffered = t ∧
      fp1.bp = fp.bp := by
  obtain ⟨bp, buffer⟩ := fp
  cases buffer with
  | none => exact absurd hr (by simp [cfile_xz.readable])
  | some bf =>
    have h := buf_fgetc_buffered bf bp hr c t hb
    refine ⟨{ bp := (buf_fgetc bf bp).2.2, buffer := some (buf_fgetc bf bp).2.1 },
      ?_, h.2.1, h.2.2.1, h.2.2.2⟩
    simp only [bz_fgetc, xz_fgetc, h.1]

/-! ## What one line read does -/

/-- The loop of `xz_gets` on a readable handle: it takes its characters from
what the line buffer holds unread and never from the codec stream. -/
theorem xz_gets_loop_spec (n : Nat) (fp : cfile_xz) (acc : List Byte) (hr : fp.readable) :
    ∃ fp1, fp1.readable ∧
      fp1.buffered = fp.buffered.drop (line_take n fp.buffered).length ∧
      fp1.bp = fp.bp ∧
      xz_gets_loop n fp acc =
        some (if 0 < n ∧ fp.buffered = [] ∧ acc = [] then none
              else some (acc ++ line_take n fp.buffered ++ [0]), fp1) := by
  induction n generalizing fp acc with
  | zero => exact ⟨fp, hr, by simp [line_take], rfl, by simp [xz_gets_loop, line_take]⟩
  | succ n ih =>
    cases hs : fp.buffered with
    | nil =>
      obtain ⟨fp1, hg, hr1, hs1, hbp⟩ := bz_fgetc_drained fp hr hs
      refine ⟨fp1, hr1, by simp [hs1], hbp, ?_⟩
      by_cases ha : acc = []
      · simp [xz_gets_loop, hg, ha]
      · simp [xz_gets_loop, hg, ha, line_take]
    | cons c t =>
      obtain ⟨fp1, hg, hr1, hs1, hbp⟩ := bz_fgetc_buffered fp hr c t hs
      by_cases hc : c = 10
      · refine ⟨fp1, hr1, by simp [line_take, hc, hs1], hbp, ?_⟩
        simp [xz_gets_loop, hg, byte_ne_EOF, byte_of_int, hc, line_take]
      · obtain ⟨fp2, hr2, hs2, hbp2, hl2⟩ := ih fp1 (acc ++ [c]) hr1
        refine ⟨fp2, hr2, by simp [line_take, hc, hs2, hs1], by rw [hbp2, hbp], ?_⟩
        simp only [xz_gets_loop, hg, byte_ne_EOF, byte_of_int, hc, if_false, hl2, hs1]
        simp [line_take, hc]

/-- What `xz_gets` does on a readable handle. -/
theorem xz_gets_spec (fp : cfile_xz) (len : Nat) (hr : fp.readable) :
    ∃ fp1, fp1.readable ∧
      fp1.buffered = fp.buffered.drop (line_take (len - 1) fp.buffered).length ∧
      fp1.bp = fp.bp ∧
      xz_gets fp len =
        some (if len = 0 ∨ (2 ≤ len ∧ fp.buffered = []) then none
              else some (line_take (len - 1) fp.buffered ++ [0]), fp1) := by
  by_cases h0 : len = 0
  · subst h0
    exact ⟨fp, hr, by simp [line_take], rfl, by simp [xz_gets]⟩
  · obtain ⟨fp1, hr1, hs1, hbp, hl1⟩ := xz_gets_loop_spec (len - 1) fp [] hr
    refine ⟨fp1, hr1, hs1, hbp, ?_⟩
    have h1 : ¬ len ≤ 0 := by omega
    simp only [xz_gets, h1, if_false, hl1, h0, false_or, List.nil_append, and_true]
    have h2 : (0 < len - 1) ↔ 2 ≤ len := by omega
    simp only [h2]

/-- A line read with `len ≥ 2` on a readable handle whose line buffer holds
nothing unread: `NULL`, and the handle's stream is as it was. -/
theorem xz_gets_drained (fp : cfile_xz) (len : Nat) (hr : fp.readable)
    (hb : fp.buffered = []) (hlen : 2 ≤ len) :
    ∃ fp1, xz_gets fp len = some (none, fp1) ∧ fp1.readable ∧ fp1.buffered = [] ∧
      fp1.remaining = fp.remaining := by
  obtain ⟨fp1, hr1, hs1, hbp, hg⟩ := xz_gets_spec fp len hr
  have hb1 : fp1.buffered = [] := by rw [hs1, hb]; simp
  refine ⟨fp1, ?_, hr1, hb1, ?_⟩
  · rw [hg]; simp [hb, hlen]
  · rw [remaining_eq fp1 hr1, remaining_eq fp hr, hb1, hb, hbp]

/-- Successive line reads with `len ≥ 2` on a readable handle whose line
buffer holds nothing unread: `NULL` every time. -/
theorem xz_gets_seq_drained (lens : List Nat) (fp : cfile_xz) (hr : fp.readable)
    (hb : fp.buffered = []) (hlens : ∀ len ∈ lens, 2 ≤ len) :
    ∃ fp1, xz_gets_seq lens fp = some (lens.map (fun _ => none), fp1) ∧
      fp1.remaining = fp.remaining := by
  induction lens generalizing fp with
  | nil => exact ⟨fp, rfl, rfl⟩
  | cons len lens ih =>
    obtain ⟨fp1, hg, hr1, hb1, hs1⟩ :=
      xz_gets_drained fp len hr hb (hlens len (List.mem_cons_self _ _))
    obtain ⟨fp2, hseq, hs2⟩ := ih fp1 hr1 hb1 (fun x hx => hlens x (List.mem_cons_of_mem _ hx))
    exact ⟨fp2, by simp [xz_gets_seq, hg, hseq], by rw [hs2, hs1]⟩

/-! ## Line reads -/

theorem xz_read_at_eof (fp : cfile_xz) (size num : Nat) (hr : fp.readable)
    (hs : fp.remaining = []) :
    (xz_read fp size num).2.1 = [] ∧ (xz_read fp size num).2.2.readable ∧
      (xz_read fp size num).2.2.remaining = [] := by
  obtain ⟨bp, buffer⟩ := fp
  cases buffer with
  | none => exact absurd hr (by simp [cfile_xz.readable])
  | some bf =>
    have hu : bf.unread = [] := (List.append_eq_nil.mp hs).1
    have hp : bp.pending = [] := (List.append_eq_nil.mp hs).2
    simp only [xz_read, BZ2_bzread]
    split
    · exact ⟨rfl, hr, hs⟩
    · refine ⟨by simp [hp], hr, ?_⟩
      simp [cfile_xz.remaining, hu, hp]

theorem xz_gets_at_eof (fp : cfile_xz) (len : Nat) (hr : fp.readable) (hs : fp.remaining = []) :
    ∃ r fp1, xz_gets fp len = some (r, fp1) ∧ copied r = [] ∧ fp1.readable ∧
      fp1.remaining = [] := by
  have hrem := remaining_eq fp hr
  rw [hs] at hrem
  have hb : fp.buffered = [] := (List.append_eq_nil.mp hrem.symm).1
  have hp : fp.bp.pending = [] := (List.append_eq_nil.mp hrem.symm).2
  obtain ⟨fp1, hr1, hs1, hbp, hg⟩ := xz_gets_spec fp len hr
  refine ⟨_, fp1, hg, ?_, hr1, ?_⟩
  · split
    · rfl
    · have : line_take (len - 1) fp.buffered = [] := by
        rw [hb]; cases len - 1 <;> rfl
      simp [copied, this]
  · rw [remaining_eq fp1 hr1, hs1, hb, hbp, hp]; simp

theorem to_int_size_mul (size num : Nat) (h : size * num < 2 ^ 31) :
    to_int (size_mul size num) = ((size * num : Nat) : Int) := by
  have h1 : size * num % 2 ^ 64 = size * num := Nat.mod_eq_of_lt (by omega)
  have h2 : size * num % 2 ^ 32 = size * num := Nat.mod_eq_of_lt (by omega)
  simp only [to_int, size_mul, h1, h2, h, if_true]

theorem xz_read_of_lt (fp : cfile_xz) (size num : Nat)
    (hw : fp.bp.writing = false) (hsz : size * num < 2 ^ 31) :
    xz_read fp size num =
      ((((fp.bp.pending.take (size * num)).length : Nat) : Int),
        fp.bp.pending.take (size * num),
        { fp with bp := { fp.bp with pending := fp.bp.pending.drop (size * num) } }) := by
  have h := to_int_size_mul size num hsz
  have hn : ¬ ((size * num : Nat) : Int) < 0 := by omega
  simp only [xz_read, BZ2_bzread, h, hw, hn, Bool.false_eq_true, or_self, if_false,
    Int.toNat_ofNat]

/-- C4, as stated, fails: with record size 4 and count 10000 on a stream
holding 40000 bytes, all 40000 bytes are delivered and `xz_read` returns
40000, the byte count, not 10000. -/
theorem xz_read_returns_byte_count :
    records_handle.bp.pending.length = 40000 ∧
    (xz_read records_handle 4 10000).2.1.length = 4 * 10000 ∧
    (xz_read records_handle 4 10000).1 = 40000 ∧
    (xz_read records_handle 4 10000).1 ≠ 10000 := by
  have h := xz_read_of_lt records_handle 4 10000 rfl (by norm_num)
  have hp : records_handle.bp.pending = List.replicate 40000 0 := rfl
  have hl : (List.take (4 * 10000) records_handle.bp.pending).length = 40000 := by
    rw [hp, List.length_take, List.length_replicate]; norm_num
  refine ⟨by rw [hp, List.length_replicate], ?_, ?_, ?_⟩
  · rw [h]; exact hl
  · rw [h]; simp only [hl]; rfl
  · rw [h]; simp only [hl]; decide

/-- C4, amended: `xz_read` returns the number of bytes transferred.  On a
stream open for reading and for `size * num < 2^31`, it hands over the next
`size * num` bytes of the stream, or all that is left if that is less, and
returns the number of bytes handed over: `size * num` on a full read, the
smaller byte count on a short one. -/
theorem xz_read_counts_bytes (fp : cfile_xz) (size num : Nat)
    (hw : fp.bp.writing = false) (hsz : size * num < 2 ^ 31) :
    (xz_read fp size num).2.1 = fp.bp.pending.take (size * num) ∧
    (xz_read fp size num).1 = ((min (size * num) fp.bp.pending.length : Nat) : Int) ∧
    (xz_read fp size num).2.2.bp.pending = fp.bp.pending.drop (size * num) ∧
    (xz_read fp size num).2.2.buffer = fp.buffer := by
  rw [xz_read_of_lt fp size num hw hsz]
  simp [List.length_take]

/-- Witness of the amended C4: one record of two bytes. -/
theorem xz_read_counts_bytes_witness :
    abc_handle.bp.writing = false ∧ 2 * 1 < 2 ^ 31 ∧
    ((xz_read abc_handle 2 1).2.1 = abc_handle.bp.pending.take (2 * 1) ∧
    (xz_read abc_handle 2 1).1 = ((min (2 * 1) abc_handle.bp.pending.length : Nat) : Int) ∧
    (xz_read abc_handle 2 1).2.2.bp.pending = abc_handle.bp.pending.drop (2 * 1) ∧
    (xz_read abc_handle 2 1).2.2.buffer = abc_handle.buffer) :=
  ⟨by decide, by decide, xz_read_counts_bytes abc_handle 2 1 (by decide) (by decide)⟩

/-- C5: mode exclusivity.  On a handle in read mode and for every rendered
string, `xz_vprintf` reports failure (returns -1) and leaves the handle, the
codec stream included, as it was: nothing is written.  The function makes no
test of its own; the codec's write refuses a stream opened for reading. -/
theorem xz_vprintf_read_mode_fails (fp : cfile_xz) (buf : List Byte) (hm : fp.read_mode) :
    (xz_vprintf fp buf).1 = -1 ∧ (xz_vprintf fp buf).2 = fp ∧
      (xz_vprintf fp buf).2.bp.accepted = fp.bp.accepted := by
  have hw : fp.bp.writing = false := hm.2
  simp [xz_vprintf, BZ2_bzwrite, hw]

/-- Witness of C5: printing `"hi"` to the read handle `abc_handle`. -/
theorem xz_vprintf_read_mode_fails_witness :
    abc_handle.read_mode ∧
    ((xz_vprintf abc_handle [104, 105]).1 = -1 ∧ (xz_vprintf abc_handle [104, 105]).2 = abc_handle ∧
      (xz_vprintf abc_handle [104, 105]).2.bp.accepted = abc_handle.bp.accepted) :=
  ⟨by decide, xz_vprintf_read_mode_fails abc_handle [104, 105] (by decide)⟩

/-- C6: `xz_flush` returns 0 and leaves the handle (codec stream, line
buffer contents, cursor, valid length) as it was, on every handle, so on
every handle in read mode. -/
theorem xz_flush_no_effect (fp : cfile_xz) : xz_flush fp = (0, fp) := by
  simp [xz_flush, BZ2_bzflush]

/-! ## Close -/

/-- C7, as stated, fails: the second of two `xz_close` calls finalises the
codec stream again.  On a write handle it makes the write-close and stores
the size a second time; on a read handle it makes the read-close again. -/
theorem xz_close_twice_finalises_twice :
    (xz_close_twice write_handle 0 0).2.2 = [Call.bzWriteClose 0, Call.bzip_attempt_store 2] ∧
    (xz_close_twice abc_handle 0 0).2.2 = [Call.bzReadClose] := by
  decide

/-- C7, amended: `xz_close` keeps no record of having run.  Of two calls on
one handle each makes exactly one finalising call on the codec, two in all,
and the second stores a size annotation exactly when the line buffer is not
allocated; the second makes the same calls as a first call would. -/
theorem xz_close_not_idempotent (fp : cfile_xz) (u1 u2 : Nat) :
    ((xz_close_twice fp u1 u2).2.2.filter Call.finalises).length = 1 ∧
    (((xz_close_twice fp u1 u2).1.2 ++ (xz_close_twice fp u1 u2).2.2).filter
      Call.finalises).length = 2 ∧
    ((xz_close_twice fp u1 u2).2.2.filter Call.stores).length =
      (if fp.buffer.isSome = true then 0 else 1) ∧
    (xz_close_twice fp u1 u2).2 = xz_close fp u2 := by
  obtain ⟨bp, buffer⟩ := fp
  cases buffer <;> simp [xz_close_twice, xz_close, Call.finalises, Call.stores]

/-- C9: `xz_close` decides the mode from the line buffer alone.  With the
buffer allocated it makes the read-close and nothing else; with no buffer it
makes the write-close once and then stores the value the write-close left in
`uncompressed_size` (for a stream opened for writing, the number of bytes
accepted, modulo 2^32).  The value returned is the status of that close. -/
theorem xz_close_by_buffer (fp : cfile_xz) (u : Nat) :
    xz_close fp u =
      (if fp.buffer.isSome = true then (BZ2_bzReadClose fp.bp, [Call.bzReadClose])
       else ((BZ2_bzWriteClose fp.bp 0 u).1,
             [Call.bzWriteClose 0, Call.bzip_attempt_store (BZ2_bzWriteClose fp.bp 0 u).2])) ∧
    ((xz_close fp u).2.filter Call.finalises).length = 1 ∧
    ((xz_close fp u).2.filter Call.stores).length =
      (if fp.buffer.isSome = true then 0 else 1) ∧
    (BZ2_bzWriteClose fp.bp 0 u).2 =
      (if fp.bp.writing = true then fp.bp.accepted.length % 2 ^ 32 else u) := by
  obtain ⟨bp, buffer⟩ := fp
  refine ⟨?_, ?_, ?_, ?_⟩
  · cases buffer <;> simp [xz_close]
  · cases buffer <;> simp [xz_close, Call.finalises]
  · cases buffer <;> simp [xz_close, Call.stores]
  · simp only [BZ2_bzWriteClose]
    split <;> rfl

end Cfile
